import Mathlib

/-!
Shallow embedding of the GoMusicBot queue/player/cache engine and its
Discord interaction-handler layer, with theorems settling the spec claims.

The interaction-handler layer (`InteractionHandler` in the source) is
embedded from the source file directly.  The core engine
(`bot.GuildPlayer`, the LRU caches, the single-flight fetcher) is not
part of the provided sources; those definitions are modelled from the
specification and are marked as such in their doc comments.
-/

/-- A song descriptor: identifier/URL, title, duration (seconds),
optional thumbnail, requester name.  Immutable once created. -/
structure Song where
  url : String
  title : String
  durationSec : Nat
  thumbnailURL : Option String
  requestedBy : Option String
  deriving Repr, DecidableEq

/-- Player status values of the spec state machine
{Idle, Loading, Playing, Closed}. -/
inductive PStatus where
  | idle
  | loading
  | playing
  | closed
  deriving Repr, DecidableEq

/-- Modelled from the spec: the per-tenant `bot.GuildPlayer` state
(not under the provided sources; only its callers are).  It owns the
pending queue, the "now playing" slot, the voice-session handle and the
playback status.  `sessionCloseCount` counts VoiceSession closes so that
"closes exactly once" is expressible; `streamActive` records whether a
stream is in flight. -/
structure GuildPlayer where
  status : PStatus
  current : Option Song
  pending : List Song
  sessionOpen : Bool
  sessionCloseCount : Nat
  streamActive : Bool
  deriving Repr, DecidableEq

/-- The freshly constructed player: Idle, nothing playing, empty queue,
no session. -/
def initPlayer : GuildPlayer :=
  { status := .idle, current := none, pending := [],
    sessionOpen := false, sessionCloseCount := 0, streamActive := false }

/-- Result of a queue removal. -/
inductive RemoveResult where
  | removed (song : Song) (rest : List Song)
  | invalidPosition
  deriving Repr, DecidableEq

/-- Modelled from the spec: `RemoveSong(position)` on the pending queue
(`bot.GuildPlayer.RemoveSong` is not under the provided sources).  With
1-based `position` inside `[1, len(pending)]` it removes that entry;
otherwise it fails with `InvalidPosition` leaving the queue unmodified. -/
def removeSong (pending : List Song) (p : Int) : RemoveResult :=
  if 1 ≤ p ∧ p ≤ (pending.length : Int) then
    match pending.get? (p - 1).toNat with
    | some s => .removed s (pending.eraseIdx (p - 1).toNat)
    | none => .invalidPosition
  else .invalidPosition

/-- Modelled from the spec: the player-level removal.  It only ever acts
on the pending queue; the "now playing" slot is untouched, and on
`InvalidPosition` the whole player is returned unchanged. -/
def removeSongPlayer (pl : GuildPlayer) (p : Int) : GuildPlayer × RemoveResult :=
  match removeSong pl.pending p with
  | .removed s rest => ({ pl with pending := rest }, .removed s rest)
  | .invalidPosition => (pl, .invalidPosition)

/-- Modelled from the spec: `AddSong` appends the song to the pending
queue (FIFO append); it never touches the "now playing" slot. -/
def addSong (pl : GuildPlayer) (s : Song) : GuildPlayer :=
  { pl with pending := pl.pending ++ [s] }

/-- Modelled from the spec: `GetPlaylist` returns a snapshot of the
pending queue; the currently playing song lives in the separate
`current` slot and is not part of the snapshot. -/
def getPlaylist (pl : GuildPlayer) : List Song :=
  pl.pending

/-- Modelled from the spec: the control path dequeues the queue head
into the "now playing" slot whenever nothing is streaming and the queue
is non-empty (Idle → Loading → Playing collapsed into one step). -/
def playNext (pl : GuildPlayer) : GuildPlayer :=
  match pl.current, pl.pending with
  | none, s :: rest =>
      { pl with current := some s, pending := rest, status := .playing }
  | _, _ => pl

/-- Modelled from the spec: `Stop()` cancels any in-flight stream,
clears the Queue, closes the VoiceSession (counted, so "exactly once"
is expressible) and transitions to Closed; on an already-Closed player
it is a no-op returning success. -/
def stop (pl : GuildPlayer) : GuildPlayer × Bool :=
  if pl.status = .closed then (pl, true)
  else
    ({ status := .closed, current := none, pending := [],
       sessionOpen := false,
       sessionCloseCount :=
         pl.sessionCloseCount + (if pl.sessionOpen then 1 else 0),
       streamActive := false }, true)

/-- Frames are opaque payload units; a frame sequence is their list. -/
abbrev FrameSeq := List Nat

/-- Result of the external fetch/transcode collaborator. -/
inductive FetchResult where
  | ok (frames : FrameSeq)
  | err
  deriving Repr, DecidableEq

/-- Modelled from the spec: single-flight bookkeeping of the Audio
Source Pipeline for one normalized song key (the fetcher sources are
not under the provided sources).  `inflight` holds the callers waiting
on the in-flight fetch, `cached` the stored frame sequence, `fetchCount`
the number of collaborator invocations, `delivered` the results handed
to callers. -/
structure SFState where
  inflight : List Nat
  cached : Option FrameSeq
  fetchCount : Nat
  delivered : List (Nat × FetchResult)
  deriving Repr, DecidableEq

/-- The single-flight state before any call. -/
def sfInit : SFState :=
  { inflight := [], cached := none, fetchCount := 0, delivered := [] }

/-- Modelled from the spec: a `Resolve` call arriving.  A cache hit is
answered immediately; otherwise the caller either starts the one
in-flight fetch (incrementing `fetchCount`) or joins the waiters. -/
def sfArrive (st : SFState) (caller : Nat) : SFState :=
  match st.cached with
  | some fs => { st with delivered := (caller, FetchResult.ok fs) :: st.delivered }
  | none =>
    match st.inflight with
    | [] => { st with inflight := [caller], fetchCount := st.fetchCount + 1 }
    | w :: ws => { st with inflight := caller :: w :: ws }

/-- Modelled from the spec: the in-flight fetch completing with result
`r`.  Every waiter receives `r`; on success the frames are cached, on
failure nothing is stored. -/
def sfComplete (st : SFState) (r : FetchResult) : SFState :=
  { st with
    inflight := [],
    cached := match r with | .ok fs => some fs | .err => st.cached,
    delivered := st.inflight.map (fun c => (c, r)) ++ st.delivered }

/-- A batch of `Resolve` arrivals, in order. -/
def arriveAll (st : SFState) (callers : List Nat) : SFState :=
  callers.foldl sfArrive st

/-- A cache entry: normalized key and payload size. -/
structure CEntry where
  key : String
  size : Nat
  deriving Repr, DecidableEq

/-- Total payload size of a list of entries. -/
def totalSize (l : List CEntry) : Nat :=
  (l.map CEntry.size).sum

/-- The longest prefix whose total size fits inside `cap`; keeping it
and discarding the rest is exactly "evict from the least-recently-used
end until the cache fits". -/
def fitPrefix (cap : Nat) : List CEntry → List CEntry
  | [] => []
  | e :: rest => if e.size ≤ cap then e :: fitPrefix (cap - e.size) rest else []

/-- Remove the first entry with the given key, returning it (if any)
and the remaining entries in order. -/
def extractKey (k : String) : List CEntry → Option CEntry × List CEntry
  | [] => (none, [])
  | e :: rest =>
    if e.key = k then (some e, rest)
    else
      let pr := extractKey k rest
      (pr.1, e :: pr.2)

/-- Modelled from the spec: a bounded LRU cache.  `entries` is kept in
most-recently-used-first order; the configured capacity bounds the
total size. -/
structure LruCache where
  entries : List CEntry
  capacity : Nat
  deriving Repr, DecidableEq

/-- Modelled from the spec: an access refreshes the entry's last-access
time, i.e. moves it to the most-recently-used front. -/
def accessEntry (c : LruCache) (k : String) : LruCache :=
  match extractKey k c.entries with
  | (some e, rest) => { c with entries := e :: rest }
  | (none, _) => c

/-- Modelled from the spec: inserting an entry replaces any entry with
the same key, places the new entry at the most-recently-used front,
then evicts least-recently-used entries until the total size fits the
configured capacity. -/
def insertEntry (c : LruCache) (e : CEntry) : LruCache :=
  { c with entries := fitPrefix c.capacity (e :: (extractKey e.key c.entries).2) }

/-- A tenant (guild) identifier. -/
abbrev GuildID := String

/-- An event arriving at the interaction handler that touches the
guild-to-player registry: a guild-join, a guild-leave, or any slash
command (every command handler calls `getGuildPlayer`). -/
inductive RegEvent where
  | guildCreate (g : GuildID)
  | guildDelete (g : GuildID)
  | command (g : GuildID)
  deriving Repr, DecidableEq

/-- The registry key set together with a log of the players `Close()`
was invoked on. -/
structure Registry where
  guilds : List GuildID
  closed : List GuildID
  deriving Repr, DecidableEq

/-- `getGuildPlayer`: look the guild up, creating and inserting a fresh
player when absent (the lookup-or-create path every command handler
uses). -/
def lookupOrCreate (gs : List GuildID) (g : GuildID) : List GuildID :=
  if g ∈ gs then gs else g :: gs

/-- One registry-touching event, as the handler processes it:
`GuildCreate` stores a player for the guild; `GuildDelete` obtains the
player via `getGuildPlayer` (inserting if absent), invokes `Close` on
it, then deletes the entry; any command goes through `getGuildPlayer`
and may therefore insert. -/
def stepReg (r : Registry) : RegEvent → Registry
  | .guildCreate g => { r with guilds := lookupOrCreate r.guilds g }
  | .guildDelete g =>
      { guilds := (lookupOrCreate r.guilds g).erase g,
        closed := g :: r.closed }
  | .command g => { r with guilds := lookupOrCreate r.guilds g }

/-- A player as the presence monitor sees it: the member count of its
bound voice channel (from `GetVoiceChannelInfo`, when bound) and a
count of `Stop()` calls issued to it. -/
structure PlayerView where
  voiceMembers : Option Nat
  stopCount : Nat
  deriving Repr, DecidableEq

/-- Issuing `Stop()` on a monitored player. -/
def presenceStop (p : PlayerView) : PlayerView :=
  { p with stopCount := p.stopCount + 1 }

/-- One player's treatment during a presence sweep: if the bound voice
channel reports exactly one member (the bot alone), `Stop()` is issued;
otherwise the player is left untouched. -/
def tickOne (gp : GuildID × PlayerView) : GuildID × PlayerView :=
  match gp.2.voiceMembers with
  | some n => if n = 1 then (gp.1, presenceStop gp.2) else gp
  | none => gp

/-- One full tick of `CheckVoiceChannelsPresence`: iterate over all
registered players and apply the sole-occupant check to each. -/
def presenceTick (players : List (GuildID × PlayerView)) :
    List (GuildID × PlayerView) :=
  players.map tickOne

/-- The two events the monitor's select loop can observe. -/
inductive MonEvent where
  | tick
  | ctxDone
  deriving Repr, DecidableEq

/-- Whether a monitor event is a ticker tick. -/
def isTick : MonEvent → Bool
  | .tick => true
  | .ctxDone => false

/-- The monitor loop over a schedule of events: it processes ticks until
the first shutdown signal, at which point it returns.  Result: number
of ticks processed and whether the loop terminated via the signal. -/
def monitorRun : List MonEvent → Nat × Bool
  | [] => (0, false)
  | .tick :: rest => ((monitorRun rest).1 + 1, (monitorRun rest).2)
  | .ctxDone :: _ => (0, true)

/-- Characters of the decimal rendering of a number. -/
def natChars (n : Nat) : List Char :=
  (Nat.repr n).data

/-- The three-character truncation marker. -/
def dotsChars : List Char :=
  ['.', '.', '.']

/-- One numbered playlist line, as `fmt.Sprintf("%d. %s\n", idx+1, song)`
renders it for the 0-based index `idx`. -/
def lineFor (idx : Nat) (song : List Char) : List Char :=
  natChars (idx + 1) ++ '.' :: ' ' :: (song ++ ['\n'])

/-- The `ListPlaylist` accumulation loop over the playlist: append each
numbered line while the accumulated length plus the next line stays at
or under 4000; a line that would push past 4000 makes the loop append
the truncation marker and stop. -/
def buildGo (idx : Nat) (acc : List Char) : List (List Char) → List Char
  | [] => acc
  | s :: rest =>
    if 4000 < (lineFor idx s).length + acc.length then acc ++ dotsChars
    else buildGo (idx + 1) (acc ++ lineFor idx s) rest

/-- ASCII whitespace, as `strings.TrimSpace` strips it for this text. -/
def isSpaceChar (c : Char) : Bool :=
  c == ' ' || c == '\n' || c == '\t' || c == '\r'

/-- `strings.TrimSpace`: drop leading and trailing whitespace. -/
def trimChars (l : List Char) : List Char :=
  ((l.dropWhile isSpaceChar).reverse.dropWhile isSpaceChar).reverse

/-- The embed description `ListPlaylist` renders for a non-empty
playlist. -/
def listPlaylistMessage (songs : List (List Char)) : List Char :=
  trimChars (buildGo 0 [] songs)

/-- The concatenation of the numbered lines of a playlist segment,
numbering from 0-based index `idx`. -/
def linesConcat (idx : Nat) : List (List Char) → List Char
  | [] => []
  | s :: rest => lineFor idx s ++ linesConcat (idx + 1) rest

/-- A text-channel identifier. -/
abbrev ChannelID := String

/-- The per-channel interaction storage, as the map the in-memory
storage keeps from channel to its saved song list (an absent channel
yields the empty list). -/
abbrev Storage := ChannelID → List Song

/-- `GetSongList`. -/
def getSongList (st : Storage) (ch : ChannelID) : List Song :=
  st ch

/-- `SaveSongList`. -/
def saveSongList (st : Storage) (ch : ChannelID) (songs : List Song) : Storage :=
  fun c => if c = ch then songs else st c

/-- `DeleteSongList`. -/
def deleteSongList (st : Storage) (ch : ChannelID) : Storage :=
  fun c => if c = ch then [] else st c

/-- The user-visible outcomes of `AddSongOrPlaylist`. -/
inductive SelResponse where
  | somethingWrong
  | serverError
  | alreadySelected
  | notInVoice
  | addedPlaylist (n : Nat)
  | addedSong
  deriving Repr, DecidableEq

/-- What one `AddSongOrPlaylist` call produced: the storage afterwards,
the songs handed to the player's queue, and the response sent. -/
structure SelOutcome where
  storage : Storage
  added : List Song
  response : SelResponse

/-- `AddSongOrPlaylist` from the source: reject empty component values;
reject when the guild cannot be fetched; an empty stored list answers
"already selected"; a user outside any voice channel is rejected (the
stored list is kept); otherwise the selection (whole playlist or first
song) is added and the stored list for the channel is deleted. -/
def addSongOrPlaylist (st : Storage) (ch : ChannelID) (values : List String)
    (guildOk : Bool) (userVoiceChannel : Option String) : SelOutcome :=
  match values with
  | [] => ⟨st, [], .somethingWrong⟩
  | v :: _ =>
    if guildOk = false then ⟨st, [], .serverError⟩
    else
      match getSongList st ch with
      | [] => ⟨st, [], .alreadySelected⟩
      | s :: restSongs =>
        match userVoiceChannel with
        | none => ⟨st, [], .notInVoice⟩
        | some _ =>
          if v = "playlist" then
            ⟨deleteSongList st ch, s :: restSongs,
             .addedPlaylist (s :: restSongs).length⟩
          else
            ⟨deleteSongList st ch, [s], .addedSong⟩

/-- A user's voice state in a guild. -/
structure VoiceState where
  userID : String
  channelID : String
  deriving Repr, DecidableEq

/-- The guild data the handler consults: its voice states. -/
structure Guild where
  voiceStates : List VoiceState
  deriving Repr, DecidableEq

/-- `getUsersVoiceState` from the source: the first voice state whose
user matches, if any. -/
def getUsersVoiceState (g : Guild) (userID : String) : Option VoiceState :=
  g.voiceStates.find? (fun vs => vs.userID == userID)

/-- The responses `PlaySong` can give before or instead of the deferred
acknowledgement. -/
inductive PlayResponse where
  | serverError
  | notInVoice
  | deferred
  deriving Repr, DecidableEq

/-- The observable outcome of one `PlaySong` call. -/
structure PlayOutcome where
  response : PlayResponse
  player : GuildPlayer
  lookupInvoked : Bool
  storage : Storage

/-- `PlaySong` from the source: a failed guild fetch answers a server
error; a requester with no voice state in the guild is answered with
the not-in-voice-channel message before any lookup; otherwise the
deferred acknowledgement is sent and the asynchronous lookup runs — a
single result is enqueued, several results are saved to the per-channel
storage for the follow-up selection. -/
def playSong (guildOk : Bool) (g : Guild) (userID : String)
    (player : GuildPlayer) (st : Storage) (ch : ChannelID)
    (lookupResult : List Song) : PlayOutcome :=
  if guildOk = false then ⟨.serverError, player, false, st⟩
  else
    match getUsersVoiceState g userID with
    | none => ⟨.notInVoice, player, false, st⟩
    | some _ =>
      match lookupResult with
      | [] => ⟨.deferred, player, true, st⟩
      | [s] => ⟨.deferred, addSong player s, true, st⟩
      | s :: s2 :: more => ⟨.deferred, player, true, saveSongList st ch (s :: s2 :: more)⟩

/-- A concrete song for witnesses. -/
def sA : Song := ⟨"urlA", "titleA", 100, none, none⟩

/-- A concrete song for witnesses. -/
def sB : Song := ⟨"urlB", "titleB", 200, none, none⟩

/-- A concrete song for witnesses. -/
def sC : Song := ⟨"urlC", "titleC", 300, none, none⟩

/-- A concrete player for witnesses: streaming `sA`, pending `[sB, sC]`. -/
def plW : GuildPlayer :=
  { status := .playing, current := some sA, pending := [sB, sC],
    sessionOpen := true, sessionCloseCount := 0, streamActive := true }

/-- C1: `RemoveSong(p)` with `1 ≤ p ≤ len(pending)` removes exactly the
p-th pending entry — the element at 0-based index `p-1` — shifting every
later position down by one; every `p` outside `[1, len(pending)]`
yields `InvalidPosition` and leaves the player unmodified; in both
cases the currently streaming song is untouched. -/
theorem c1_removeSong_spec (pl : GuildPlayer) (p : Int) :
    (1 ≤ p ∧ p ≤ (pl.pending.length : Int) →
      ∃ s rest,
        removeSongPlayer pl p = ({ pl with pending := rest }, .removed s rest) ∧
        pl.pending.get? (p - 1).toNat = some s ∧
        rest.length = pl.pending.length - 1 ∧
        (∀ i : Nat, i < (p - 1).toNat → rest.get? i = pl.pending.get? i) ∧
        (∀ i : Nat, (p - 1).toNat ≤ i → rest.get? i = pl.pending.get? (i + 1))) ∧
    (¬(1 ≤ p ∧ p ≤ (pl.pending.length : Int)) →
      removeSongPlayer pl p = (pl, .invalidPosition)) ∧
    (removeSongPlayer pl p).1.current = pl.current := by
  refine ⟨?_, ?_, ?_⟩
  · rintro ⟨h1, h2⟩
    have hlt : (p - 1).toNat < pl.pending.length := by omega
    obtain ⟨s, hs⟩ : ∃ s, pl.pending.get? (p - 1).toNat = some s := by
      rw [List.get?_eq_getElem?, List.getElem?_eq_getElem hlt]
      exact ⟨_, rfl⟩
    refine ⟨s, pl.pending.eraseIdx (p - 1).toNat, ?_, hs, ?_, ?_, ?_⟩
    · unfold removeSongPlayer removeSong
      rw [if_pos ⟨h1, h2⟩, hs]
    · rw [List.length_eraseIdx, if_pos hlt]
    · intro i hi
      rw [List.get?_eq_getElem?, List.get?_eq_getElem?, List.getElem?_eraseIdx,
        if_pos hi]
    · intro i hi
      rw [List.get?_eq_getElem?, List.get?_eq_getElem?, List.getElem?_eraseIdx,
        if_neg (by omega)]
  · intro h
    unfold removeSongPlayer removeSong
    rw [if_neg h]
  · unfold removeSongPlayer removeSong
    by_cases h : 1 ≤ p ∧ p ≤ (pl.pending.length : Int)
    · rw [if_pos h]
      cases hq : pl.pending.get? (p - 1).toNat <;> simp
    · rw [if_neg h]

/-- C1 witness: removing position 2 from the concrete player `plW`. -/
theorem c1_removeSong_spec_witness :
    (1 ≤ (2 : Int) ∧ (2 : Int) ≤ (plW.pending.length : Int)) ∧
    (∃ s rest,
      removeSongPlayer plW 2 = ({ plW with pending := rest }, .removed s rest) ∧
      plW.pending.get? ((2 : Int) - 1).toNat = some s ∧
      rest.length = plW.pending.length - 1 ∧
      (∀ i : Nat, i < ((2 : Int) - 1).toNat → rest.get? i = plW.pending.get? i) ∧
      (∀ i : Nat, ((2 : Int) - 1).toNat ≤ i → rest.get? i = plW.pending.get? (i + 1))) :=
  ⟨⟨by decide, by decide⟩, (c1_removeSong_spec plW 2).1 ⟨by decide, by decide⟩⟩

/-- Appending songs one by one leaves the "now playing" slot alone and
appends to the pending queue in order. -/
theorem foldl_addSong (ss : List Song) (pl : GuildPlayer) :
    (ss.foldl addSong pl).pending = pl.pending ++ ss ∧
    (ss.foldl addSong pl).current = pl.current := by
  induction ss generalizing pl with
  | nil => simp
  | cons s rest ih =>
    have h := ih (addSong pl s)
    simp only [List.foldl_cons]
    rw [h.1, h.2]
    simp [addSong]

/-- Dequeueing into the "now playing" slot, spelled out. -/
theorem playNext_eq (pl : GuildPlayer) (s : Song) (rest : List Song)
    (hc : pl.current = none) (hp : pl.pending = s :: rest) :
    playNext pl = { pl with current := some s, pending := rest, status := .playing } := by
  unfold playNext
  rw [hc, hp]

/-- C2: after any sequence of `AddSong` calls on a fresh player,
`GetPlaylist()` returns the songs in exactly their insertion (FIFO)
order; once the control path starts streaming the head, the snapshot is
the remaining tail and (for distinct songs) never contains the song now
streaming. -/
theorem c2_getPlaylist_fifo (ss : List Song) (hnd : ss.Nodup) :
    getPlaylist (ss.foldl addSong initPlayer) = ss ∧
    (∀ c, (playNext (ss.foldl addSong initPlayer)).current = some c →
      c ∉ getPlaylist (playNext (ss.foldl addSong initPlayer))) := by
  have h := foldl_addSong ss initPlayer
  have hpend : (ss.foldl addSong initPlayer).pending = ss := by
    rw [h.1]; simp [initPlayer]
  have hcur : (ss.foldl addSong initPlayer).current = none := by
    rw [h.2]; rfl
  refine ⟨by rw [getPlaylist, hpend], ?_⟩
  intro c hc
  cases ss with
  | nil =>
    have hid : playNext ([].foldl addSong initPlayer) = [].foldl addSong initPlayer := by
      unfold playNext
      rw [hcur, hpend]
    rw [hid, hcur] at hc
    exact absurd hc (by simp)
  | cons s rest =>
    rw [playNext_eq _ s rest hcur hpend] at hc ⊢
    simp only [getPlaylist]
    have hcs : c = s := by
      have := hc
      simp at this
      exact this.symm
    subst hcs
    exact (List.nodup_cons.mp hnd).1

/-- C2 witness: three distinct songs added in order. -/
theorem c2_getPlaylist_fifo_witness :
    [sA, sB, sC].Nodup ∧
    getPlaylist ([sA, sB, sC].foldl addSong initPlayer) = [sA, sB, sC] ∧
    (∀ c, (playNext ([sA, sB, sC].foldl addSong initPlayer)).current = some c →
      c ∉ getPlaylist (playNext ([sA, sB, sC].foldl addSong initPlayer))) := by
  have hnd : ([sA, sB, sC] : List Song).Nodup := by decide
  exact ⟨hnd, c2_getPlaylist_fifo [sA, sB, sC] hnd⟩

/-- C5: the first `Stop()` on a live player cancels the in-flight
stream, clears the queue, closes the VoiceSession exactly once (the
close count rises by one exactly when a session was open) and reaches
the terminal Closed state; a second `Stop()` is a no-op returning
success. -/
theorem c5_stop_idempotent (pl : GuildPlayer) (h : pl.status ≠ .closed) :
    (stop pl).1.status = .closed ∧
    (stop pl).1.pending = [] ∧
    (stop pl).1.streamActive = false ∧
    (stop pl).1.sessionOpen = false ∧
    (stop pl).1.sessionCloseCount
      = pl.sessionCloseCount + (if pl.sessionOpen then 1 else 0) ∧
    (stop pl).2 = true ∧
    stop (stop pl).1 = ((stop pl).1, true) := by
  unfold stop
  rw [if_neg h]
  simp

/-- C5 witness: stopping the concrete playing player `plW` twice. -/
theorem c5_stop_idempotent_witness :
    plW.status ≠ PStatus.closed ∧
    ((stop plW).1.status = .closed ∧
     (stop plW).1.pending = [] ∧
     (stop plW).1.streamActive = false ∧
     (stop plW).1.sessionOpen = false ∧
     (stop plW).1.sessionCloseCount
       = plW.sessionCloseCount + (if plW.sessionOpen then 1 else 0) ∧
     (stop plW).2 = true ∧
     stop (stop plW).1 = ((stop plW).1, true)) :=
  ⟨by decide, c5_stop_idempotent plW (by decide)⟩

/-- While a fetch is in flight and nothing is cached, further arrivals
only join the waiter list: no second fetch starts, nothing is cached,
nothing is delivered yet. -/
theorem arriveAll_joins (cs : List Nat) (st : SFState)
    (hc : st.cached = none) (w : Nat) (ws : List Nat)
    (hw : st.inflight = w :: ws) :
    arriveAll st cs = { st with inflight := cs.reverse ++ st.inflight } := by
  induction cs generalizing st w ws with
  | nil =>
    simp [arriveAll]
  | cons c rest ih =>
    have harr : sfArrive st c = { st with inflight := c :: w :: ws } := by
      unfold sfArrive
      rw [hc, hw]
    have hstep : arriveAll st (c :: rest) = arriveAll (sfArrive st c) rest := by
      simp [arriveAll]
    rw [hstep, harr,
      ih ⟨c :: w :: ws, st.cached, st.fetchCount, st.delivered⟩ hc c (w :: ws) rfl]
    simp [hw, List.append_assoc]

/-- C3: any positive number of `Resolve` arrivals for one key, all
before the fetch completes, trigger exactly one collaborator
invocation; on completion every caller is delivered the one shared
result (success or error alike), only that result is ever delivered,
and a failed fetch leaves the cache empty. -/
theorem c3_resolve_single_flight (callers : List Nat) (r : FetchResult)
    (h : callers ≠ []) :
    (sfComplete (arriveAll sfInit callers) r).fetchCount = 1 ∧
    (∀ c ∈ callers, (c, r) ∈ (sfComplete (arriveAll sfInit callers) r).delivered) ∧
    (∀ q ∈ (sfComplete (arriveAll sfInit callers) r).delivered, q.2 = r) ∧
    (r = .err → (sfComplete (arriveAll sfInit callers) r).cached = none) := by
  obtain ⟨c0, cs, rfl⟩ := List.exists_cons_of_ne_nil h
  have h1 : arriveAll sfInit (c0 :: cs) = arriveAll (sfArrive sfInit c0) cs := by
    simp [arriveAll]
  have h2 : sfArrive sfInit c0
      = { inflight := [c0], cached := none, fetchCount := 1, delivered := [] } := by
    rfl
  have h3 : arriveAll (sfArrive sfInit c0) cs
      = { inflight := cs.reverse ++ [c0], cached := none,
          fetchCount := 1, delivered := [] } := by
    rw [h2, arriveAll_joins cs _ rfl c0 [] rfl]
  rw [h1, h3]
  refine ⟨rfl, ?_, ?_, ?_⟩
  · intro c hcmem
    have hmem : c ∈ cs.reverse ++ [c0] := by
      rcases List.mem_cons.mp hcmem with hce | hcs
      · simp [hce]
      · simp [hcs]
    simp only [sfComplete, List.append_nil]
    exact List.mem_map.mpr ⟨c, hmem, rfl⟩
  · intro q hq
    simp only [sfComplete, List.append_nil, List.mem_map] at hq
    obtain ⟨c, _, rfl⟩ := hq
    rfl
  · intro hr
    subst hr
    rfl

/-- C3 witness: three concurrent callers and a failing fetch. -/
theorem c3_resolve_single_flight_witness :
    ([7, 8, 9] : List Nat) ≠ [] ∧
    ((sfComplete (arriveAll sfInit [7, 8, 9]) .err).fetchCount = 1 ∧
     (∀ c ∈ ([7, 8, 9] : List Nat),
        (c, FetchResult.err) ∈ (sfComplete (arriveAll sfInit [7, 8, 9]) .err).delivered) ∧
     (∀ q ∈ (sfComplete (arriveAll sfInit [7, 8, 9]) .err).delivered,
        q.2 = FetchResult.err) ∧
     (FetchResult.err = .err →
        (sfComplete (arriveAll sfInit [7, 8, 9]) .err).cached = none)) :=
  ⟨by decide, c3_resolve_single_flight [7, 8, 9] .err (by decide)⟩

/-- The kept prefix always fits the capacity. -/
theorem totalSize_fitPrefix_le (cap : Nat) (l : List CEntry) :
    totalSize (fitPrefix cap l) ≤ cap := by
  induction l generalizing cap with
  | nil => simp [fitPrefix, totalSize]
  | cons e rest ih =>
    unfold fitPrefix
    by_cases h : e.size ≤ cap
    · rw [if_pos h]
      have hr := ih (cap - e.size)
      simp only [totalSize, List.map_cons, List.sum_cons] at hr ⊢
      omega
    · rw [if_neg h]
      simp [totalSize]

/-- What survives the eviction sweep is a prefix of the
most-recently-used-first list: evicted entries are exactly a
least-recently-used suffix. -/
theorem fitPrefix_eq_take (cap : Nat) (l : List CEntry) :
    ∃ k, fitPrefix cap l = l.take k := by
  induction l generalizing cap with
  | nil => exact ⟨0, rfl⟩
  | cons e rest ih =>
    unfold fitPrefix
    by_cases h : e.size ≤ cap
    · obtain ⟨k, hk⟩ := ih (cap - e.size)
      exact ⟨k + 1, by rw [if_pos h, hk]; rfl⟩
    · exact ⟨0, by rw [if_neg h]; rfl⟩

/-- Extracting a present key conserves the total size. -/
theorem extractKey_some_total (k : String) (l : List CEntry) (e : CEntry)
    (h : (extractKey k l).1 = some e) :
    totalSize l = e.size + totalSize (extractKey k l).2 := by
  induction l with
  | nil => simp [extractKey] at h
  | cons x rest ih =>
    by_cases hx : x.key = k
    · unfold extractKey at h ⊢
      rw [if_pos hx] at h ⊢
      simp only [Option.some.injEq] at h
      subst h
      simp [totalSize]
    · unfold extractKey at h ⊢
      rw [if_neg hx] at h ⊢
      simp only at h ⊢
      have hr := ih h
      simp only [totalSize, List.map_cons, List.sum_cons] at hr ⊢
      omega

/-- The extracted entry carries the requested key. -/
theorem extractKey_some_key (k : String) (l : List CEntry) (e : CEntry)
    (h : (extractKey k l).1 = some e) : e.key = k := by
  induction l with
  | nil => simp [extractKey] at h
  | cons x rest ih =>
    by_cases hx : x.key = k
    · unfold extractKey at h
      rw [if_pos hx] at h
      simp only [Option.some.injEq] at h
      subst h
      exact hx
    · unfold extractKey at h
      rw [if_neg hx] at h
      exact ih h

/-- An access never changes the total cache size (it only refreshes the
last-access order). -/
theorem totalSize_accessEntry (c : LruCache) (k : String) :
    totalSize (accessEntry c k).entries = totalSize c.entries := by
  unfold accessEntry
  cases hp : extractKey k c.entries with
  | mk f s =>
    cases f with
    | some e =>
      simp only
      have h1 : (extractKey k c.entries).1 = some e := by rw [hp]
      have h2 := extractKey_some_total k c.entries e h1
      rw [hp] at h2
      simp only [totalSize, List.map_cons, List.sum_cons] at h2 ⊢
      omega
    | none => simp only

/-- An access never changes the configured capacity. -/
theorem accessEntry_capacity (c : LruCache) (k : String) :
    (accessEntry c k).capacity = c.capacity := by
  unfold accessEntry
  cases hp : extractKey k c.entries with
  | mk f s => cases f <;> simp only

/-- In a sweep over `e :: ea :: rest`, if anything besides the fresh
head `e` survives, then `ea` — the most recently used old entry —
survives. -/
theorem survive_second (cap : Nat) (e ea : CEntry) (rest : List CEntry)
    (x : CEntry) (hx : x ∈ fitPrefix cap (e :: ea :: rest)) (hxe : x ≠ e) :
    ea ∈ fitPrefix cap (e :: ea :: rest) := by
  obtain ⟨k, hk⟩ := fitPrefix_eq_take cap (e :: ea :: rest)
  rw [hk] at hx ⊢
  match k with
  | 0 => simp at hx
  | 1 =>
    simp only [List.take_succ_cons, List.take_zero, List.mem_singleton] at hx
    exact absurd hx hxe
  | k + 2 => simp

/-- C4: after an insertion the total cache size is at or under the
configured capacity; accesses keep the size unchanged (so the bound is
preserved); evictions keep a most-recently-used prefix, i.e. they
remove least-recently-used entries first; and after accessing an entry
immediately before an insertion sweep, that entry survives whenever any
old entry at all survives — it outlives every less recently used one. -/
theorem c4_lru_eviction (c : LruCache) (e : CEntry) (k a : String)
    (ea : CEntry)
    (hinv : totalSize c.entries ≤ c.capacity)
    (ha : (extractKey a c.entries).1 = some ea)
    (hkey : e.key ≠ a) :
    totalSize (insertEntry c e).entries ≤ c.capacity ∧
    totalSize (accessEntry c k).entries ≤ c.capacity ∧
    (∃ kk, (insertEntry c e).entries
        = (e :: (extractKey e.key c.entries).2).take kk) ∧
    ((∃ x ∈ (insertEntry (accessEntry c a) e).entries, x.key ≠ e.key) →
      ea ∈ (insertEntry (accessEntry c a) e).entries) := by
  have heakey : ea.key = a := extractKey_some_key a c.entries ea ha
  refine ⟨totalSize_fitPrefix_le _ _, ?_, fitPrefix_eq_take _ _, ?_⟩
  · rw [totalSize_accessEntry]
    exact hinv
  · rintro ⟨x, hx, hxk⟩
    have hacc : (accessEntry c a).entries = ea :: (extractKey a c.entries).2 := by
      unfold accessEntry
      cases hp : extractKey a c.entries with
      | mk f s =>
        rw [hp] at ha
        simp only at ha
        subst ha
        simp only
    have hne : ¬(ea.key = e.key) := by
      rw [heakey]
      exact fun hh => hkey hh.symm
    have hcons : extractKey e.key (ea :: (extractKey a c.entries).2)
        = ((extractKey e.key ((extractKey a c.entries).2)).1,
           ea :: (extractKey e.key ((extractKey a c.entries).2)).2) := by
      simp only [extractKey, if_neg hne]
    have hext : (extractKey e.key ((accessEntry c a).entries)).2
        = ea :: (extractKey e.key ((extractKey a c.entries).2)).2 := by
      rw [hacc, hcons]
    have hcand : (insertEntry (accessEntry c a) e).entries
        = fitPrefix c.capacity
            (e :: ea :: (extractKey e.key ((extractKey a c.entries).2)).2) := by
      unfold insertEntry
      rw [hext, accessEntry_capacity]
    rw [hcand] at hx ⊢
    refine survive_second c.capacity e ea _ x hx ?_
    intro hxeq
    exact hxk (by rw [hxeq])

/-- A concrete LRU cache for the C4 witness: two entries, capacity 5,
entry with key b most recently used. -/
def cacheW : LruCache :=
  { entries := [⟨"b", 2⟩, ⟨"a", 3⟩], capacity := 5 }

/-- C4 witness: inserting a fresh 2-sized entry after accessing key a. -/
theorem c4_lru_eviction_witness :
    (totalSize cacheW.entries ≤ cacheW.capacity ∧
     (extractKey "a" cacheW.entries).1 = some ⟨"a", 3⟩ ∧
     ("c" : String) ≠ "a") ∧
    (totalSize (insertEntry cacheW ⟨"c", 2⟩).entries ≤ cacheW.capacity ∧
     totalSize (accessEntry cacheW "b").entries ≤ cacheW.capacity ∧
     (∃ kk, (insertEntry cacheW ⟨"c", 2⟩).entries
         = ((⟨"c", 2⟩ : CEntry) :: (extractKey "c" cacheW.entries).2).take kk) ∧
     ((∃ x ∈ (insertEntry (accessEntry cacheW "a") ⟨"c", 2⟩).entries,
          x.key ≠ "c") →
       (⟨"a", 3⟩ : CEntry) ∈ (insertEntry (accessEntry cacheW "a") ⟨"c", 2⟩).entries)) :=
  ⟨⟨by decide, by decide, by decide⟩,
   c4_lru_eviction cacheW ⟨"c", 2⟩ "b" "a" ⟨"a", 3⟩ (by decide) (by decide) (by decide)⟩

/-- Membership after lookup-or-create: exactly the old entries plus the
requested guild. -/
theorem mem_lookupOrCreate (gs : List GuildID) (g a : GuildID) :
    a ∈ lookupOrCreate gs g ↔ a = g ∨ a ∈ gs := by
  unfold lookupOrCreate
  by_cases h : g ∈ gs
  · rw [if_pos h]
    constructor
    · exact Or.inr
    · rintro (rfl | ha)
      · exact h
      · exact ha
  · rw [if_neg h]
    exact List.mem_cons

/-- Lookup-or-create keeps the registry keys duplicate-free. -/
theorem nodup_lookupOrCreate (gs : List GuildID) (g : GuildID)
    (hnd : gs.Nodup) : (lookupOrCreate gs g).Nodup := by
  unfold lookupOrCreate
  by_cases h : g ∈ gs
  · rw [if_pos h]
    exact hnd
  · rw [if_neg h]
    exact List.nodup_cons.mpr ⟨h, hnd⟩

/-- C6 counterexample: on the empty registry, a mere command event (via
`getGuildPlayer`'s lookup-or-create) inserts an entry for guild g1 even
though no tenant-join event occurred — so insertion is not exclusive to
the join handler. -/
theorem c6_registry_counterexample :
    "g1" ∉ (Registry.mk [] []).guilds ∧
    "g1" ∈ (stepReg (Registry.mk [] []) (RegEvent.command "g1")).guilds ∧
    RegEvent.command "g1" ≠ RegEvent.guildCreate "g1" := by
  refine ⟨by simp, ?_, by simp⟩
  simp [stepReg, lookupOrCreate]

/-- C6 amended: registry entries are removed only by the tenant-leave
handler, which invokes Close on the tenant's player as part of the
removal (recorded in the close log); entries are inserted by the
tenant-join handler or by the lookup-or-create path that every command
handler uses for an unregistered tenant; no other event touches the
close log. -/
theorem c6_registry_discipline (r : Registry) (e : RegEvent)
    (hnd : r.guilds.Nodup) :
    (∀ g, g ∈ r.guilds → g ∉ (stepReg r e).guilds → e = RegEvent.guildDelete g) ∧
    (∀ g, g ∉ r.guilds → g ∈ (stepReg r e).guilds →
        e = RegEvent.guildCreate g ∨ e = RegEvent.command g) ∧
    (∀ g, e = RegEvent.guildDelete g →
        g ∉ (stepReg r e).guilds ∧ (stepReg r e).closed = g :: r.closed) ∧
    ((∀ g, e ≠ RegEvent.guildDelete g) → (stepReg r e).closed = r.closed) := by
  cases e with
  | guildCreate gj =>
    refine ⟨?_, ?_, ?_, fun _ => rfl⟩
    · intro g hg hng
      exact absurd ((mem_lookupOrCreate r.guilds gj g).mpr (Or.inr hg)) hng
    · intro g hg hmem
      rcases (mem_lookupOrCreate r.guilds gj g).mp hmem with rfl | hin
      · exact Or.inl rfl
      · exact absurd hin hg
    · intro g h
      exact absurd h (by simp)
  | command gj =>
    refine ⟨?_, ?_, ?_, fun _ => rfl⟩
    · intro g hg hng
      exact absurd ((mem_lookupOrCreate r.guilds gj g).mpr (Or.inr hg)) hng
    · intro g hg hmem
      rcases (mem_lookupOrCreate r.guilds gj g).mp hmem with rfl | hin
      · exact Or.inr rfl
      · exact absurd hin hg
    · intro g h
      exact absurd h (by simp)
  | guildDelete gj =>
    have hndl : (lookupOrCreate r.guilds gj).Nodup := nodup_lookupOrCreate _ _ hnd
    refine ⟨?_, ?_, ?_, ?_⟩
    · intro g hg hng
      by_cases hgg : g = gj
      · rw [hgg]
      · exfalso
        apply hng
        show g ∈ (lookupOrCreate r.guilds gj).erase gj
        rw [List.mem_erase_of_ne hgg, mem_lookupOrCreate]
        exact Or.inr hg
    · intro g hg hmem
      exfalso
      have hge := (hndl.mem_erase_iff).mp hmem
      rcases (mem_lookupOrCreate r.guilds gj g).mp hge.2 with rfl | hin
      · exact hge.1 rfl
      · exact hg hin
    · intro g h
      have hgg : gj = g := by
        injection h
      subst hgg
      refine ⟨?_, rfl⟩
      intro hmem
      exact ((hndl.mem_erase_iff).mp hmem).1 rfl
    · intro h
      exact absurd rfl (h gj)

/-- C6 amended witness: one delete event on a concrete two-guild
registry. -/
theorem c6_registry_discipline_witness :
    (["g1", "g2"] : List GuildID).Nodup ∧
    ((∀ g, g ∈ (Registry.mk ["g1", "g2"] []).guilds →
        g ∉ (stepReg (Registry.mk ["g1", "g2"] []) (RegEvent.guildDelete "g1")).guilds →
        RegEvent.guildDelete "g1" = RegEvent.guildDelete g) ∧
     (∀ g, g ∉ (Registry.mk ["g1", "g2"] []).guilds →
        g ∈ (stepReg (Registry.mk ["g1", "g2"] []) (RegEvent.guildDelete "g1")).guilds →
        RegEvent.guildDelete "g1" = RegEvent.guildCreate g ∨
          RegEvent.guildDelete "g1" = RegEvent.command g) ∧
     (∀ g, RegEvent.guildDelete "g1" = RegEvent.guildDelete g →
        g ∉ (stepReg (Registry.mk ["g1", "g2"] []) (RegEvent.guildDelete "g1")).guilds ∧
        (stepReg (Registry.mk ["g1", "g2"] []) (RegEvent.guildDelete "g1")).closed
          = g :: (Registry.mk ["g1", "g2"] []).closed) ∧
     ((∀ g, RegEvent.guildDelete "g1" ≠ RegEvent.guildDelete g) →
        (stepReg (Registry.mk ["g1", "g2"] []) (RegEvent.guildDelete "g1")).closed
          = (Registry.mk ["g1", "g2"] []).closed)) :=
  ⟨by decide,
   c6_registry_discipline (Registry.mk ["g1", "g2"] []) (RegEvent.guildDelete "g1")
     (by decide)⟩

/-- C7: a presence sweep treats each player independently and by
position; a player is issued `Stop()` precisely when its bound channel
reports exactly one member (the bot alone) and is otherwise left
completely untouched; and the monitor loop processes exactly the ticks
preceding the first shutdown signal, terminating exactly when that
signal fires. -/
theorem c7_presence_monitor (players : List (GuildID × PlayerView))
    (evs : List MonEvent) :
    (presenceTick players).length = players.length ∧
    (∀ i : Nat, (presenceTick players).get? i = (players.get? i).map tickOne) ∧
    (∀ gp : GuildID × PlayerView,
       (gp.2.voiceMembers = some 1 → tickOne gp = (gp.1, presenceStop gp.2)) ∧
       (gp.2.voiceMembers ≠ some 1 → tickOne gp = gp)) ∧
    ((monitorRun evs).2 = true ↔ MonEvent.ctxDone ∈ evs) ∧
    (monitorRun evs).1 = (evs.takeWhile isTick).length := by
  refine ⟨List.length_map _ _, ?_, ?_, ?_⟩
  · intro i
    simp [presenceTick, List.get?_eq_getElem?, List.getElem?_map]
  · intro gp
    constructor
    · intro h
      unfold tickOne
      rw [h]
      simp
    · intro h
      unfold tickOne
      cases hv : gp.2.voiceMembers with
      | none => rfl
      | some n =>
        rw [hv] at h
        have hn : ¬(n = 1) := fun hh => h (by rw [hh])
        simp only [if_neg hn]
  · induction evs with
    | nil => simp [monitorRun]
    | cons e rest ih =>
      cases e with
      | tick =>
        refine ⟨?_, ?_⟩
        · show (monitorRun rest).2 = true ↔ MonEvent.ctxDone ∈ MonEvent.tick :: rest
          rw [ih.1]
          simp
        · show (monitorRun rest).1 + 1
            = ((MonEvent.tick :: rest).takeWhile isTick).length
          rw [List.takeWhile_cons]
          simp [isTick, ih.2]
      | ctxDone =>
        refine ⟨?_, ?_⟩
        · show true = true ↔ MonEvent.ctxDone ∈ MonEvent.ctxDone :: rest
          simp
        · show 0 = ((MonEvent.ctxDone :: rest).takeWhile isTick).length
          rw [List.takeWhile_cons]
          simp [isTick]

/-- The accumulation loop never exceeds 4003 characters: each line is
appended only while the result stays at or under 4000, and the only
overshoot is the three-character truncation marker. -/
theorem buildGo_length_le (songs : List (List Char)) :
    ∀ idx acc, acc.length ≤ 4000 → (buildGo idx acc songs).length ≤ 4003 := by
  induction songs with
  | nil =>
    intro idx acc hacc
    unfold buildGo
    omega
  | cons s rest ih =>
    intro idx acc hacc
    unfold buildGo
    by_cases h : 4000 < (lineFor idx s).length + acc.length
    · rw [if_pos h]
      simp only [List.length_append, dotsChars, List.length_cons, List.length_nil]
      omega
    · rw [if_neg h]
      apply ih
      simp only [List.length_append]
      omega

/-- Trimming whitespace never lengthens the text. -/
theorem trimChars_length_le (l : List Char) :
    (trimChars l).length ≤ l.length := by
  unfold trimChars
  have h1 : (l.dropWhile isSpaceChar).length ≤ l.length :=
    (List.dropWhile_sublist _).length_le
  have h2 : ((l.dropWhile isSpaceChar).reverse.dropWhile isSpaceChar).length
      ≤ (l.dropWhile isSpaceChar).reverse.length :=
    (List.dropWhile_sublist _).length_le
  rw [List.length_reverse] at h2
  rw [List.length_reverse]
  omega

/-- The loop output is either every numbered line in order, or the
numbered lines of an initial segment followed by the truncation
marker. -/
theorem buildGo_structure (songs : List (List Char)) :
    ∀ idx acc, ∃ k, k ≤ songs.length ∧
      ((k = songs.length ∧ buildGo idx acc songs = acc ++ linesConcat idx songs) ∨
       (k < songs.length ∧
        buildGo idx acc songs = acc ++ linesConcat idx (songs.take k) ++ dotsChars)) := by
  induction songs with
  | nil =>
    intro idx acc
    refine ⟨0, le_refl _, Or.inl ⟨rfl, ?_⟩⟩
    simp [buildGo, linesConcat]
  | cons s rest ih =>
    intro idx acc
    by_cases h : 4000 < (lineFor idx s).length + acc.length
    · refine ⟨0, by simp, Or.inr ⟨by simp, ?_⟩⟩
      unfold buildGo
      rw [if_pos h]
      simp [linesConcat]
    · obtain ⟨k, hk, hcase⟩ := ih (idx + 1) (acc ++ lineFor idx s)
      refine ⟨k + 1, by simpa using hk, ?_⟩
      rcases hcase with ⟨hkl, heq⟩ | ⟨hkl, heq⟩
      · refine Or.inl ⟨by simp [hkl], ?_⟩
        unfold buildGo
        rw [if_neg h, heq]
        simp [linesConcat, List.append_assoc]
      · refine Or.inr ⟨by simpa using hkl, ?_⟩
        unfold buildGo
        rw [if_neg h, heq]
        simp [linesConcat, List.append_assoc]

/-- C8: the description `ListPlaylist` renders never exceeds 4003
characters, and it is either all numbered lines in order, or the
numbered lines of a strict initial segment of the playlist followed by
the three-dot truncation marker (after which no further song is
listed). -/
theorem c8_listPlaylist_bounded (songs : List (List Char)) :
    (listPlaylistMessage songs).length ≤ 4003 ∧
    (∃ k, k ≤ songs.length ∧
      ((k = songs.length ∧ buildGo 0 [] songs = linesConcat 0 songs) ∨
       (k < songs.length ∧
        buildGo 0 [] songs = linesConcat 0 (songs.take k) ++ dotsChars))) := by
  constructor
  · unfold listPlaylistMessage
    exact le_trans (trimChars_length_le _) (buildGo_length_le songs 0 [] (by simp))
  · obtain ⟨k, hk, hcase⟩ := buildGo_structure songs 0 []
    refine ⟨k, hk, ?_⟩
    rcases hcase with ⟨hkl, heq⟩ | ⟨hkl, heq⟩
    · exact Or.inl ⟨hkl, by simpa using heq⟩
    · exact Or.inr ⟨hkl, by simpa using heq⟩

/-- C9: a completed selection (non-empty component values, guild
fetched, a stored list present, requester in a voice channel) deletes
the stored list for the channel; any subsequent selection on that
channel finds the empty list, adds no songs to any queue, answers that
the interaction was already selected, and leaves the storage as it
was. -/
theorem c9_selection_consumed (st : Storage) (ch : ChannelID) (v : String)
    (w : String) (ws : List String) (uv2 : Option String) (uvc : String)
    (hsongs : getSongList st ch ≠ []) :
    getSongList (addSongOrPlaylist st ch [v] true (some uvc)).storage ch = [] ∧
    (addSongOrPlaylist (addSongOrPlaylist st ch [v] true (some uvc)).storage ch
        (w :: ws) true uv2).added = [] ∧
    (addSongOrPlaylist (addSongOrPlaylist st ch [v] true (some uvc)).storage ch
        (w :: ws) true uv2).response = SelResponse.alreadySelected ∧
    (addSongOrPlaylist (addSongOrPlaylist st ch [v] true (some uvc)).storage ch
        (w :: ws) true uv2).storage
      = (addSongOrPlaylist st ch [v] true (some uvc)).storage := by
  obtain ⟨s, rest, hs⟩ : ∃ s rest, getSongList st ch = s :: rest := by
    cases hq : getSongList st ch with
    | nil => exact absurd hq hsongs
    | cons s rest => exact ⟨s, rest, rfl⟩
  have hfirst : (addSongOrPlaylist st ch [v] true (some uvc)).storage
      = deleteSongList st ch := by
    unfold addSongOrPlaylist
    rw [hs]
    by_cases hv : v = "playlist" <;> simp [hv]
  have hempty : getSongList (deleteSongList st ch) ch = [] := by
    unfold getSongList deleteSongList
    simp
  rw [hfirst]
  have hsecond : addSongOrPlaylist (deleteSongList st ch) ch (w :: ws) true uv2
      = ⟨deleteSongList st ch, [], SelResponse.alreadySelected⟩ := by
    unfold addSongOrPlaylist
    rw [hempty]
    simp
  rw [hsecond]
  exact ⟨hempty, rfl, rfl, rfl⟩

/-- A concrete storage for witnesses: channel chan1 holds one saved
song. -/
def stW : Storage :=
  fun c => if c = "chan1" then [sA] else []

/-- C9 witness: a playlist selection on chan1 followed by a second
selection. -/
theorem c9_selection_consumed_witness :
    getSongList stW "chan1" ≠ [] ∧
    (getSongList (addSongOrPlaylist stW "chan1" ["playlist"] true (some "vc1")).storage
        "chan1" = [] ∧
     (addSongOrPlaylist
        (addSongOrPlaylist stW "chan1" ["playlist"] true (some "vc1")).storage
        "chan1" ["song"] true none).added = [] ∧
     (addSongOrPlaylist
        (addSongOrPlaylist stW "chan1" ["playlist"] true (some "vc1")).storage
        "chan1" ["song"] true none).response = SelResponse.alreadySelected ∧
     (addSongOrPlaylist
        (addSongOrPlaylist stW "chan1" ["playlist"] true (some "vc1")).storage
        "chan1" ["song"] true none).storage
       = (addSongOrPlaylist stW "chan1" ["playlist"] true (some "vc1")).storage) :=
  ⟨by simp [getSongList, stW],
   c9_selection_consumed stW "chan1" "playlist" "song" [] none "vc1"
     (by simp [getSongList, stW])⟩

/-- C10: when the requesting user has no voice state in the guild,
`PlaySong` answers the not-in-voice-channel message and returns: the
song lookup is never invoked, nothing is added to any queue, and the
player and the interaction storage are unchanged. -/
theorem c10_playSong_not_in_voice (g : Guild) (userID : String)
    (player : GuildPlayer) (st : Storage) (ch : ChannelID)
    (lookupResult : List Song)
    (h : ∀ vs ∈ g.voiceStates, vs.userID ≠ userID) :
    playSong true g userID player st ch lookupResult
      = ⟨PlayResponse.notInVoice, player, false, st⟩ := by
  have hfind : getUsersVoiceState g userID = none := by
    unfold getUsersVoiceState
    rw [List.find?_eq_none]
    intro vs hvs
    simpa using h vs hvs
  unfold playSong
  rw [hfind]
  simp

/-- A concrete guild for the C10 witness: one voice state belonging to
another user. -/
def guildW : Guild :=
  { voiceStates := [⟨"user2", "vc1"⟩] }

/-- C10 witness: user1 has no voice state in the concrete guild. -/
theorem c10_playSong_not_in_voice_witness :
    (∀ vs ∈ guildW.voiceStates, vs.userID ≠ "user1") ∧
    playSong true guildW "user1" plW stW "chan1" [sA, sB]
      = ⟨PlayResponse.notInVoice, plW, false, stW⟩ :=
  ⟨by decide,
   c10_playSong_not_in_voice guildW "user1" plW stW "chan1" [sA, sB] (by decide)⟩
